import Mathlib

/-!
Verification of the ZF_TrendPicking acquisition-and-filtering core.

Shallow embedding of the repository's Python source:
* `RetryHandler` from src/api/rate_limiter.py
* `AdaptiveBatchDownloader.adjust` from src/api/yfinance_client.py
* `calculate_market_return` from src/calculators/vcp_filter.py
* `sort_industries` from src/api/finmind_client.py
* `upsert_daily_price` from src/data/sqlite_database.py
* `HybridClient.get_stock_price` from src/api/hybrid_client.py
* the indicator engine from src/calculators/moving_average.py and the
  VCP / three-line-bloom filters from src/calculators/vcp_filter.py and
  src/calculators/sanxian_filter.py.

Floats are modelled by `ℚ`; NaN-able columns by `Option ℚ`; the code's
`fillna(inf)` / `fillna(-inf)` defaults by `WithTop ℚ` / `WithBot ℚ`.
-/

namespace ZFTrend

/- ==================== Retry policy (src/api/rate_limiter.py) ==================== -/

/-- `RetryHandler.DEFAULT_RETRY_INTERVALS = [300, 600, 3600]`. -/
def DEFAULT_RETRY_INTERVALS : List Nat := [300, 600, 3600]

/-- State of `RetryHandler` after `__init__` (the constructor pads
`retry_intervals` with its last element until it has `max_retries` entries). -/
structure RetryHandler where
  max_retries : Nat
  retry_intervals : List Nat
deriving Repr, DecidableEq

/-- `RetryHandler.should_retry`: no retry once `retry_count >= max_retries`;
otherwise retry exactly for 5xx or 429. -/
def RetryHandler.should_retry (h : RetryHandler) (status_code retry_count : Nat) : Bool :=
  if h.max_retries ≤ retry_count then false
  else 500 ≤ status_code || status_code == 429

/-- `RetryHandler.get_wait_time`: the `retry_count`-th configured interval,
or the last one (`retry_intervals[-1]`) past the end of the schedule. -/
def RetryHandler.get_wait_time (h : RetryHandler) (retry_count : Nat) : Nat :=
  if hlt : retry_count < h.retry_intervals.length then
    h.retry_intervals.get ⟨retry_count, hlt⟩
  else
    h.retry_intervals.getLastD 0

/- ==================== Adaptive batch downloader (src/api/yfinance_client.py) ==================== -/

/-- State of `AdaptiveBatchDownloader`. Intervals are seconds (`ℚ`, the code
multiplies and caps them). -/
structure AdaptiveBatchDownloader where
  batch_size : Nat
  min_batch_size : Nat
  max_batch_size : Nat
  batch_interval : ℚ
  max_interval : ℚ
  error_count : Nat
  success_count : Nat
deriving Repr, DecidableEq

/-- `AdaptiveBatchDownloader.adjust(success)` from src/api/yfinance_client.py:
on success increment the success counter and, once it reaches 5 while the
batch size is below the maximum, double the batch size (capped) and reset the
success counter iff the size actually changed; on failure increment the error
counter, recompute `error_count / (success_count + error_count)` and, when it
exceeds 20%, halve the batch size (floored), double the interval (capped) and
reset both counters. -/
def AdaptiveBatchDownloader.adjust (d : AdaptiveBatchDownloader) (success : Bool) :
    AdaptiveBatchDownloader :=
  if success then
    let d₁ := { d with success_count := d.success_count + 1 }
    if 5 ≤ d₁.success_count ∧ d₁.batch_size < d₁.max_batch_size then
      let old_size := d₁.batch_size
      let d₂ := { d₁ with batch_size := min (d₁.batch_size * 2) d₁.max_batch_size }
      if d₂.batch_size ≠ old_size then { d₂ with success_count := 0 } else d₂
    else d₁
  else
    let d₁ := { d with error_count := d.error_count + 1 }
    let total : Nat := d₁.success_count + d₁.error_count
    let error_rate : ℚ := if 0 < total then (d₁.error_count : ℚ) / (total : ℚ) else 0
    if 1/5 < error_rate then
      { d₁ with
        batch_size := max (d₁.batch_size / 2) d₁.min_batch_size
        batch_interval := min (d₁.batch_interval * 2) d₁.max_interval
        error_count := 0
        success_count := 0 }
    else d₁

/- ==================== Market-return helper (src/calculators/vcp_filter.py) ==================== -/

/-- One row of the market-index frame: a date (ordinal day) and the `taiex`
level, `none` when the value is NaN. -/
structure IndexRow where
  date : Nat
  taiex : Option ℚ
deriving Repr, DecidableEq

/-- `df.sort_values("date")` on the market frame. -/
def sortIndexByDate (market : List IndexRow) : List IndexRow :=
  market.insertionSort (fun a b => a.date ≤ b.date)

/-- `df[df["date"] <= target_dt]` after sorting: the observations on or
before the target date. -/
def obsOnOrBefore (market : List IndexRow) (target : Nat) : List IndexRow :=
  (sortIndexByDate market).filter (fun r => r.date ≤ target)

/-- `calculate_market_return(market_df, target_date, lookback)` from
src/calculators/vcp_filter.py: locate the last observation on or before the
target date, shrink the lookback to the number of prior observations when the
history is short, and return `(current - past) / past`, degrading to `0` on
empty data, no observation before the target, zero lookback, a missing
endpoint, or a zero past price. -/
def calculate_market_return (market : List IndexRow) (target : Nat)
    (lookback : Nat := 20) : ℚ :=
  if market = [] then 0
  else
    let df := sortIndexByDate market
    let before := obsOnOrBefore market target
    if before = [] then 0
    else
      let target_pos := before.length - 1
      let lb := if target_pos < lookback then target_pos else lookback
      if lb = 0 then 0
      else
        match (df.get? target_pos).bind IndexRow.taiex,
              (df.get? (target_pos - lb)).bind IndexRow.taiex with
        | some current_price, some past_price =>
            if past_price = 0 then 0 else (current_price - past_price) / past_price
        | some _, none => 0
        | none, _ => 0

/- ==================== Industry-category merge (src/api/finmind_client.py) ==================== -/

/-- The `INDUSTRY_PRIORITY` table of `FinMindClient.get_stock_info`; unlisted
categories default to rank 50 (`INDUSTRY_PRIORITY.get(x, 50)`). -/
def INDUSTRY_PRIORITY (c : String) : Nat :=
  if c = "半導體業" then 1
  else if c = "電腦及週邊設備業" then 2
  else if c = "光電業" then 3
  else if c = "通信網路業" then 4
  else if c = "電子零組件業" then 5
  else if c = "電子通路業" then 6
  else if c = "資訊服務業" then 7
  else if c = "其他電子業" then 8
  else if c = "電子工業" then 9
  else if c = "化學工業" then 3
  else if c = "化學生技醫療" then 2
  else if c = "生技醫療業" then 1
  else 50

/-- The `NON_INDUSTRY_LABELS` set (board-type tags filtered before merging). -/
def NON_INDUSTRY_LABELS : List String := ["創新板股票"]

/-- `sort_industries` from `FinMindClient.get_stock_info`: drop non-industry
labels (keeping the raw list when that empties it) and sort the rest by
priority rank, descending — Python's `sorted(..., reverse=True)` is a stable
descending sort, modelled by the (stable) insertion sort. -/
def sort_industries (industry_list : List String) : List String :=
  if industry_list = [] then industry_list
  else
    let filtered := industry_list.filter (fun x => x ∉ NON_INDUSTRY_LABELS)
    if filtered = [] then industry_list
    else if filtered.length ≤ 1 then filtered
    else filtered.insertionSort (fun a b => INDUSTRY_PRIORITY b ≤ INDUSTRY_PRIORITY a)

/-- The two output slots: `industry_category = x[0] if x else "-"` and
`industry_category2 = x[1] if len(x) > 1 else "-"` applied to the sorted list. -/
def mergedCategories (industry_list : List String) : String × String :=
  let s := sort_industries industry_list
  (s.headD "-", s.getD 1 "-")

/- ==================== Daily-price upsert (src/data/sqlite_database.py) ==================== -/

/-- One `DailyPrice` record as inserted by `upsert_daily_price` (after the
column rename); any OHLC field may be absent. -/
structure PriceRecord where
  stock_id : String
  date : Nat
  open_price : Option ℚ
  high_price : Option ℚ
  low_price : Option ℚ
  close_price : Option ℚ
  volume : Option Nat
deriving Repr, DecidableEq

/-- The (symbol, date) key of a record. -/
def PriceRecord.key (r : PriceRecord) : String × Nat := (r.stock_id, r.date)

/-- The stored table (SQL tables are unordered; the list order is incidental). -/
abbrev PriceTable := List PriceRecord

/-- `df.drop_duplicates(subset=["stock_id", "date"], keep="last")`: keep each
row that is the last occurrence of its key. -/
def dropDupKeysKeepLast : PriceTable → PriceTable
  | [] => []
  | r :: rs =>
      if rs.any (fun s => s.key = r.key) then dropDupKeysKeepLast rs
      else r :: dropDupKeysKeepLast rs

/-- `df["date"].unique()`: the distinct dates, in order of first appearance. -/
def uniqueDates (rows : PriceTable) : List Nat :=
  ((rows.map PriceRecord.date).foldl
    (fun acc d => if d ∈ acc then acc else acc ++ [d]) [])

/-- One iteration of the per-date loop: delete the rows of `target_date` whose
symbol is about to be re-inserted, then bulk-insert that date's rows. -/
def upsertDay (store : PriceTable) (target_date : Nat) (day_rows : PriceTable) :
    PriceTable :=
  let day_stock_ids := day_rows.map PriceRecord.stock_id
  store.filter
      (fun r => ¬(r.date = target_date ∧ r.stock_id ∈ day_stock_ids))
    ++ day_rows

/-- `SQLiteDatabase.upsert_daily_price`: dedupe the incoming frame on
(symbol, date) keeping the last row, then, per distinct date, delete-and-insert
exactly that date's incoming symbols. -/
def upsert_daily_price (store : PriceTable) (rows : PriceTable) : PriceTable :=
  let df := dropDupKeysKeepLast rows
  (uniqueDates df).foldl
    (fun st d => upsertDay st d (df.filter (fun r => r.date = d))) store

/-- All stored rows carrying a given key (a well-formed table has at most one). -/
def rowsWithKey (t : PriceTable) (k : String × Nat) : PriceTable :=
  t.filter (fun r => r.key = k)

/-- A table is well-keyed when no key occurs on two rows. -/
def WellKeyed (t : PriceTable) : Prop :=
  ∀ k, (rowsWithKey t k).length ≤ 1

/- ==================== Hybrid price operation (src/api/hybrid_client.py) ==================== -/

/-- A normalized OHLCV row as returned by either client. -/
structure FetchedRow where
  stock_id : String
  date : Nat
  close : Option ℚ
deriving Repr, DecidableEq

/-- A client call either raises (modelled `.error ()`) or returns a frame. -/
abbrev FetchResult := Except Unit (List FetchedRow)

/-- `HybridClient.MIN_PRICE_RATIO = 0.5`. -/
def minPriceRatio : ℚ := 1/2

/-- `set(primary_df["stock_id"].unique())` for a frame. -/
def fetchedSymbols (df : List FetchedRow) : List String :=
  (df.map FetchedRow.stock_id).dedup

/-- `missing_stocks = requested_stocks - fetched_stocks` (as a set; the
enumeration order of a Python set is irrelevant to the result). -/
def missingSymbols (stock_ids : List String) (df : List FetchedRow) : List String :=
  stock_ids.dedup.filter (fun s => s ∉ fetchedSymbols df)

/-- The full-fallback branch of `HybridClient.get_stock_price`: fetch the whole
set from FinMind; on error or empty result return the empty frame. -/
def hybridFullFallback (stock_ids : List String)
    (fm : List String → FetchResult) : List FetchedRow :=
  match fm stock_ids with
  | .error _ => []
  | .ok fallback_df => fallback_df

/-- `HybridClient.get_stock_price`, with the two underlying clients passed as
oracles: `yf` is the yfinance result for the whole request and `fm` is the
FinMind client, invoked either on the whole set (full fallback) or on the
missing set (gap fill). Triggers a full fallback when yfinance errors, returns
nothing, or covers fewer than half the requested symbols; otherwise gap-fills
only the missing symbols and concatenates, returning the partial yfinance
frame when the fill errors or comes back empty. -/
def hybrid_get_stock_price (stock_ids : List String) (yf : FetchResult)
    (fm : List String → FetchResult) : List FetchedRow :=
  if stock_ids = [] then []
  else
    match yf with
    | .error _ => hybridFullFallback stock_ids fm
    | .ok primary_df =>
        if primary_df = [] then hybridFullFallback stock_ids fm
        else
          let fetched := fetchedSymbols primary_df
          let success_ratio : ℚ := (fetched.length : ℚ) / (stock_ids.length : ℚ)
          if success_ratio < minPriceRatio then hybridFullFallback stock_ids fm
          else
            let missing := missingSymbols stock_ids primary_df
            if missing = [] then primary_df
            else
              match fm missing with
              | .error _ => primary_df
              | .ok fill_df =>
                  if fill_df = [] then primary_df else primary_df ++ fill_df

/- ==================== Indicator engine (src/calculators/moving_average.py) ==================== -/

/-- One raw price bar of a symbol (date plus the NaN-able price fields the
filters consume). -/
structure Bar where
  date : Nat
  close_price : Option ℚ
  high_price : Option ℚ
deriving Repr, DecidableEq

/-- The chronologically sorted history of one symbol; the frame
`df.sort_values(["stock_id", "date"])` grouped by `stock_id`. -/
structure StockSeries where
  stock_id : String
  bars : List Bar
deriving Repr, DecidableEq

/-- The trailing window of length at most `n` ending at row `i`
(`pandas` rolling window / `x.iloc[max(0, i - n + 1) : i + 1]`). -/
def windowAt (xs : List (Option ℚ)) (i n : Nat) : List (Option ℚ) :=
  (xs.take (i + 1)).drop (i + 1 - n)

/-- The non-NaN values of a window, in order. -/
def validVals (w : List (Option ℚ)) : List ℚ := w.filterMap id

/-- `x.rolling(window=n, min_periods=m).mean()` at row `i`: NaN unless the
window holds at least `m` non-NaN values, else their mean. -/
def rollingMean (n m : Nat) (xs : List (Option ℚ)) (i : Nat) : Option ℚ :=
  let vals := validVals (windowAt xs i n)
  if vals.length < m then none else some (vals.sum / (vals.length : ℚ))

/-- `x.rolling(window=n, min_periods=m).max()` at row `i`. -/
def rollingMax (n m : Nat) (xs : List (Option ℚ)) (i : Nat) : Option ℚ :=
  let vals := validVals (windowAt xs i n)
  if vals.length < m then none else vals.max?

/-- `x.rolling(window=n, min_periods=m).min()` at row `i`. -/
def rollingMin (n m : Nat) (xs : List (Option ℚ)) (i : Nat) : Option ℚ :=
  let vals := validVals (windowAt xs i n)
  if vals.length < m then none else vals.min?

/-- `calculate_sma`: full-window SMA, `rolling(window=n, min_periods=n)`. -/
def smaAt (n : Nat) (xs : List (Option ℚ)) (i : Nat) : Option ℚ :=
  rollingMean n n xs i

/-- The `min_periods` used by `calculate_high_low` / `calculate_close_high`:
`max(period // 2, 1)`. -/
def highLowMinPeriods (n : Nat) : Nat := max (n / 2) 1

/-- `calculate_high_low`'s rolling high: `rolling(n, min_periods=max(n/2,1)).max()`. -/
def rollingHighAt (n : Nat) (xs : List (Option ℚ)) (i : Nat) : Option ℚ :=
  rollingMax n (highLowMinPeriods n) xs i

/-- `calculate_high_low`'s rolling low. -/
def rollingLowAt (n : Nat) (xs : List (Option ℚ)) (i : Nat) : Option ℚ :=
  rollingMin n (highLowMinPeriods n) xs i

/-- `calculate_returns`: `x.pct_change(periods=p)` at row `i`, i.e.
`x[i] / x[i - p] - 1`, NaN when the lookback row does not exist or either
endpoint is NaN. -/
def pctChangeAt (p : Nat) (xs : List (Option ℚ)) (i : Nat) : Option ℚ :=
  if i < p then none
  else
    match xs.getD i none, xs.getD (i - p) none with
    | some cur, some past => some (cur / past - 1)
    | some _, none => none
    | none, _ => none

/-- `calculate_ma_slope` on the MA200 column: `ma[i] - ma[i - lookback]`,
NaN when the shifted row does not exist or either MA value is NaN. -/
def ma200SlopeAt (lookback : Nat) (xs : List (Option ℚ)) (i : Nat) : Option ℚ :=
  if i < lookback then none
  else
    match smaAt 200 xs i, smaAt 200 xs (i - lookback) with
    | some a, some b => some (a - b)
    | some _, none => none
    | none, _ => none

/-- `calculate_second_high`: among the trailing `p` observations (growing
window), the second-largest; NaN when the window has fewer than 2 rows, and
also when it has fewer than 2 non-NaN values (`sort_values` places NaN last,
so position 1 then lands on a NaN). -/
def secondHighAt (p : Nat) (xs : List (Option ℚ)) (i : Nat) : Option ℚ :=
  let w := windowAt xs i p
  if w.length < 2 then none
  else
    let sorted_vals := (validVals w).insertionSort (fun a b => b ≤ a)
    sorted_vals.get? 1

/- ==================== VCP filter (src/calculators/vcp_filter.py) ==================== -/

/-- One row of `prepare_vcp_data`'s output for a symbol. -/
structure VcpRow where
  stock_id : String
  date : Nat
  close_price : Option ℚ
  ma50 : Option ℚ
  ma150 : Option ℚ
  ma200 : Option ℚ
  ma200_slope_20d : Option ℚ
  return_20d : Option ℚ
  high_5d : Option ℚ
  high_252d : Option ℚ
deriving Repr, DecidableEq

/-- `MovingAverageCalculator.prepare_vcp_data` restricted to one symbol:
MA50/150/200, the 20-day MA200 slope, the 20-day return, and the 5-day and
252-day rolling highs of the high price. -/
def prepareVcpSeries (s : StockSeries) : List VcpRow :=
  let closes := s.bars.map Bar.close_price
  let highs := s.bars.map Bar.high_price
  (List.range s.bars.length).map (fun i =>
    { stock_id := s.stock_id
      date := (s.bars.getD i ⟨0, none, none⟩).date
      close_price := closes.getD i none
      ma50 := smaAt 50 closes i
      ma150 := smaAt 150 closes i
      ma200 := smaAt 200 closes i
      ma200_slope_20d := ma200SlopeAt 20 closes i
      return_20d := pctChangeAt 20 closes i
      high_5d := rollingHighAt 5 highs i
      high_252d := rollingHighAt 252 highs i })

/-- `prepare_vcp_data` over the whole frame: the rolling computations run
per `stock_id` group. -/
def prepareVcp (f : List StockSeries) : List VcpRow :=
  f.flatMap prepareVcpSeries

/-- `fillna(float("inf"))` on a NaN-able column. -/
def fillInf (o : Option ℚ) : WithTop ℚ := o.elim ⊤ (fun v => (v : WithTop ℚ))

/-- `fillna(-float("inf"))` on a NaN-able column. -/
def fillNegInf (o : Option ℚ) : WithBot ℚ := o.elim ⊥ (fun v => (v : WithBot ℚ))

/-- `VCPFilter._filter_strong_list`: `close.fillna(0) > ma50.fillna(inf) >
ma150.fillna(inf) > ma200.fillna(inf)` and `ma200_slope_20d.fillna(-1) > 0`. -/
def strongCond (r : VcpRow) : Bool :=
  let close : WithTop ℚ := ((r.close_price.getD 0 : ℚ) : WithTop ℚ)
  decide (fillInf r.ma50 < close) && decide (fillInf r.ma150 < fillInf r.ma50) &&
    decide (fillInf r.ma200 < fillInf r.ma150) &&
    decide (0 < r.ma200_slope_20d.getD (-1))

/-- `VCPFilter._filter_new_high_list`: with `high_5d.fillna(0)` and
`high_252d.fillna(1)` (and `0` further replaced by `1` in the denominator),
`|high_5d / high_252d - 1| ≤ tolerance` and `high_252d > 0`. -/
def newHighCond (tolerance : ℚ) (r : VcpRow) : Bool :=
  let high_5d : ℚ := r.high_5d.getD 0
  let high_52w : ℚ := r.high_252d.getD 1
  let high_52w_safe : ℚ := if high_52w = 0 then 1 else high_52w
  decide (|high_5d / high_52w_safe - 1| ≤ tolerance) && decide (0 < high_52w)

/-- The beats-the-benchmark mask: `return_20d.fillna(-inf) > market_return_20d`. -/
def beatMarketCond (market_return_20d : ℚ) (r : VcpRow) : Bool :=
  decide ((market_return_20d : WithBot ℚ) < fillNegInf r.return_20d)

/-- One row of `VCPFilter.filter`'s output. -/
structure VcpResult where
  stock_id : String
  date : Nat
  close_price : Option ℚ
  return_20d : Option ℚ
  is_strong : Bool
  is_new_high : Bool
deriving Repr, DecidableEq

/-- The output row built from one indicator row: `is_strong` / `is_new_high`
are each conjoined with the beats-the-benchmark mask. -/
def toVcpResult (tolerance market_return_20d : ℚ) (r : VcpRow) : VcpResult :=
  { stock_id := r.stock_id
    date := r.date
    close_price := r.close_price
    return_20d := r.return_20d
    is_strong := strongCond r && beatMarketCond market_return_20d r
    is_new_high := newHighCond tolerance r && beatMarketCond market_return_20d r }

/-- `VCPFilter.filter`: prepare the indicator columns, keep the target date's
rows, mark `is_strong` / `is_new_high` and keep the rows satisfying their
union. -/
def vcpFilter (tolerance : ℚ) (f : List StockSeries) (market_return_20d : ℚ)
    (target_date : Nat) : List VcpResult :=
  let day_rows := (prepareVcp f).filter (fun r => r.date = target_date)
  let results := day_rows.map (toVcpResult tolerance market_return_20d)
  results.filter (fun r => r.is_strong || r.is_new_high)

/- ==================== Three-line-bloom filter (src/calculators/sanxian_filter.py) ==================== -/

/-- One row of `prepare_sanxian_data`'s output for a symbol. -/
structure SanxianRow where
  stock_id : String
  date : Nat
  close_price : Option ℚ
  ma8 : Option ℚ
  ma21 : Option ℚ
  ma55 : Option ℚ
  high_55d : Option ℚ
  second_high_55d : Option ℚ
deriving Repr, DecidableEq

/-- `MovingAverageCalculator.prepare_sanxian_data` restricted to one symbol:
MA8/21/55, the 55-day rolling high of the *closing* price, and the 55-day
second-highest close. -/
def prepareSanxianSeries (s : StockSeries) : List SanxianRow :=
  let closes := s.bars.map Bar.close_price
  (List.range s.bars.length).map (fun i =>
    { stock_id := s.stock_id
      date := (s.bars.getD i ⟨0, none, none⟩).date
      close_price := closes.getD i none
      ma8 := smaAt 8 closes i
      ma21 := smaAt 21 closes i
      ma55 := smaAt 55 closes i
      high_55d := rollingHighAt 55 closes i
      second_high_55d := secondHighAt 55 closes i })

/-- `prepare_sanxian_data` over the whole frame. -/
def prepareSanxian (f : List StockSeries) : List SanxianRow :=
  f.flatMap prepareSanxianSeries

/-- The bloom chain: `close.fillna(0) > ma8.fillna(inf) > ma21.fillna(inf) >
ma55.fillna(inf)`. -/
def sanxianChainCond (r : SanxianRow) : Bool :=
  let close : WithTop ℚ := ((r.close_price.getD 0 : ℚ) : WithTop ℚ)
  decide (fillInf r.ma8 < close) && decide (fillInf r.ma21 < fillInf r.ma8) &&
    decide (fillInf r.ma55 < fillInf r.ma21)

/-- The bloom new-high test: `close.fillna(0) >= high_55d.fillna(inf)`. -/
def sanxianNewHighCond (r : SanxianRow) : Bool :=
  let close : WithTop ℚ := ((r.close_price.getD 0 : ℚ) : WithTop ℚ)
  decide (fillInf r.high_55d ≤ close)

/-- One row of `SanxianFilter.filter`'s output. -/
structure SanxianResult where
  stock_id : String
  date : Nat
  today_price : Option ℚ
  second_high_55d : Option ℚ
  gap_ratio : Option ℚ
deriving Repr, DecidableEq

/-- The gap ratio of a matching row: `close_price / second_high - 1` where
`second_high = second_high_55d.fillna(1).replace(0, 1)` (NaN when the close
itself is NaN). -/
def sanxianGapRatio (r : SanxianRow) : Option ℚ :=
  let second_high : ℚ :=
    if r.second_high_55d.getD 1 = 0 then 1 else r.second_high_55d.getD 1
  r.close_price.map (fun c => c / second_high - 1)

/-- The bloom output row built from one matching indicator row. -/
def toSanxianResult (r : SanxianRow) : SanxianResult :=
  { stock_id := r.stock_id
    date := r.date
    today_price := r.close_price
    second_high_55d := r.second_high_55d
    gap_ratio := sanxianGapRatio r }

/-- `SanxianFilter.filter`: prepare the bloom indicators, keep the target
date's rows passing `chain AND close >= 55-day close high`, and report today's
close, the 55-day second-highest close and the gap ratio. -/
def sanxianFilter (f : List StockSeries) (target_date : Nat) :
    List SanxianResult :=
  let day_rows := (prepareSanxian f).filter (fun r => r.date = target_date)
  let matchRows := day_rows.filter (fun r => sanxianChainCond r && sanxianNewHighCond r)
  matchRows.map toSanxianResult

/-- The domain restriction under which the `ℚ` embedding of
`pct_change` is exact: every close price present and positive (no NaN padding,
no division by zero). -/
@[reducible] def PosCloses (f : List StockSeries) : Prop :=
  ∀ s ∈ f, ∀ b ∈ s.bars, b.close_price.isSome = true ∧ 0 < b.close_price.getD 0

/- ==================== Concrete fixtures for witnesses ==================== -/

/-- An index history with 11 observations (10 prior to the last one). -/
def market11 : List IndexRow :=
  (List.range 11).map (fun i => ⟨i, some ((100 : ℚ) + i)⟩)

/-- A 21-bar series (constant close/high 1): the 20-day return is defined but
MA50/150/200 and the 252-day high are not. -/
def vcpShortSeries : StockSeries :=
  ⟨"1101", (List.range 21).map (fun i => ⟨i, some 1, some 1⟩)⟩

/-- The one-symbol frame around `vcpShortSeries`. -/
def vcpShortFrame : List StockSeries := [vcpShortSeries]

/-- A small well-keyed stored table: two dates of 2330 and one of 2317. -/
def demoStore : PriceTable :=
  [⟨"2330", 1, some 1, some 2, some 1, some 2, some 100⟩,
   ⟨"2330", 2, some 2, some 3, some 2, some 3, some 200⟩,
   ⟨"2317", 1, some 5, some 6, some 5, some 6, some 300⟩]

/-- An upsert payload touching date 1 of both symbols but not date 2. -/
def demoRows : PriceTable :=
  [⟨"2330", 1, some 10, some 11, some 9, some 10, some 500⟩,
   ⟨"2317", 1, some 7, some 8, some 7, some 8, some 400⟩]

/-- A 55-bar series with strictly rising closes 1..55: the bloom chain and
close-based 55-day high both hold on the last row. -/
def bloomSeries : StockSeries :=
  ⟨"2330", (List.range 55).map (fun i => ⟨i, some ((i + 1 : Nat) : ℚ), none⟩)⟩

/-- The one-symbol frame around `bloomSeries`. -/
def bloomFrame : List StockSeries := [bloomSeries]

/-- The bloom output row expected for `bloomSeries` on date 54. -/
def bloomRes : SanxianResult := ⟨"2330", 54, some 55, some 54, some (1/54)⟩

/-- A three-symbol price request. -/
def gfIds : List String := ["1101", "2330", "2317"]

/-- The yfinance frame covering only the first two requested symbols. -/
def gfPrimary : List FetchedRow := [⟨"1101", 1, some 10⟩, ⟨"2330", 1, some 11⟩]

/-- The FinMind gap-fill frame for the one missing symbol. -/
def gfFill : List FetchedRow := [⟨"2317", 1, some 12⟩]

/-- A FinMind oracle that answers only the gap-fill request. -/
def gfFm : List String → FetchResult :=
  fun l => if l = ["2317"] then .ok gfFill else .error ()

/- ==================== Theorems ==================== -/

/-- C4: `should_retry(status_code, retry_count)` holds iff
`retry_count < max_retries` and the status is 429 or a 5xx; other 4xx codes
are never retried; `get_wait_time(retry_count)` returns the `retry_count`-th
entry of the configured schedule (default `[300, 600, 3600]`), clamped to the
last entry at or past the end. -/
theorem retry_policy_spec (h : RetryHandler) (status_code retry_count : Nat)
    (hne : h.retry_intervals ≠ []) :
    DEFAULT_RETRY_INTERVALS = [300, 600, 3600]
    ∧ (h.should_retry status_code retry_count = true ↔
        retry_count < h.max_retries ∧ (status_code = 429 ∨ 500 ≤ status_code))
    ∧ (400 ≤ status_code → status_code < 500 → status_code ≠ 429 →
        h.should_retry status_code retry_count = false)
    ∧ (∀ w, h.retry_intervals.get? retry_count = some w →
        h.get_wait_time retry_count = w)
    ∧ (h.retry_intervals.length ≤ retry_count →
        h.get_wait_time retry_count = h.retry_intervals.getLast hne) := by
  refine ⟨rfl, ?_, ?_, ?_, ?_⟩
  · simp only [RetryHandler.should_retry]
    split
    · next hge => simp only [Bool.false_eq_true, false_iff]; omega
    · next hlt =>
        simp only [Bool.or_eq_true, decide_eq_true_eq, beq_iff_eq]
        omega
  · intro h1 h2 h3
    simp only [RetryHandler.should_retry]
    split
    · rfl
    · simp only [Bool.or_eq_false_iff, decide_eq_false_iff_not, beq_eq_false_iff_ne, ne_eq]
      omega
  · intro w hw
    obtain ⟨hlt, hg⟩ := List.get?_eq_some.mp hw
    simp only [RetryHandler.get_wait_time]
    rw [dif_pos hlt]
    exact hg
  · intro hle
    simp only [RetryHandler.get_wait_time]
    rw [dif_neg (by omega)]
    rw [List.getLastD_eq_getLast?, List.getLast?_eq_getLast _ hne]
    rfl

/-- C4 witness: with the default handler, status 503 at attempt 1 retries and
waits the schedule's second entry, 600 seconds. -/
theorem retry_policy_witness :
    (RetryHandler.mk 3 [300, 600, 3600]).retry_intervals.get? 1 = some 600
    ∧ (RetryHandler.mk 3 [300, 600, 3600]).get_wait_time 1 = 600 :=
  ⟨by decide,
    (retry_policy_spec (RetryHandler.mk 3 [300, 600, 3600]) 503 1
      (by decide)).2.2.2.1 600 (by decide)⟩

/-- C5 counterexample: merging `["電子工業", "半導體業"]` puts the broader
`電子工業` first (rank 9, sorted descending), not `半導體業` as claimed. -/
theorem industry_merge_counterexample :
    mergedCategories ["電子工業", "半導體業"] = ("電子工業", "半導體業")
    ∧ mergedCategories ["電子工業", "半導體業"] ≠ ("半導體業", "電子工業") := by
  constructor
  · decide
  · decide

/-- C5 amended: the merge filters non-industry labels and sorts the rest by
the priority table descending, so the broader category occupies slot 1
(`["電子工業", "半導體業"] ↦ ("電子工業", "半導體業")`); with fewer than two
categories the unused slots carry the sentinel `"-"`. -/
theorem industry_merge_spec (l : List String) :
    mergedCategories ["電子工業", "半導體業"] = ("電子工業", "半導體業")
    ∧ (l ≠ [] → l.filter (fun x => x ∉ NON_INDUSTRY_LABELS) ≠ [] →
        (sort_industries l).Perm (l.filter (fun x => x ∉ NON_INDUSTRY_LABELS))
        ∧ (sort_industries l).Pairwise
            (fun a b => INDUSTRY_PRIORITY b ≤ INDUSTRY_PRIORITY a))
    ∧ (∀ x, sort_industries l = [x] → mergedCategories l = (x, "-"))
    ∧ mergedCategories [] = ("-", "-") := by
  refine ⟨by decide, ?_, ?_, by decide⟩
  · intro h1 h2
    simp only [sort_industries, if_neg h1, if_neg h2]
    split
    · next hlen =>
        constructor
        · exact List.Perm.refl _
        · rcases hfil : l.filter (fun x => x ∉ NON_INDUSTRY_LABELS) with - | ⟨a, - | ⟨b, t⟩⟩
          · simp
          · simp
          · rw [hfil] at hlen; simp at hlen
    · next hlen =>
        constructor
        · exact List.perm_insertionSort _ _
        · haveI : IsTotal String (fun a b => INDUSTRY_PRIORITY b ≤ INDUSTRY_PRIORITY a) :=
            ⟨fun a b => Nat.le_total _ _⟩
          haveI : IsTrans String (fun a b => INDUSTRY_PRIORITY b ≤ INDUSTRY_PRIORITY a) :=
            ⟨fun _ _ _ hab hbc => le_trans hbc hab⟩
          exact List.sorted_insertionSort _ _
  · intro x hx
    simp only [mergedCategories, hx]
    rfl

/-- C5 amended witness: a three-tag list with a board-type label merges to the
filtered, priority-descending pair. -/
theorem industry_merge_witness :
    (["半導體業", "創新板股票", "電子工業"] : List String) ≠ []
    ∧ (["半導體業", "創新板股票", "電子工業"].filter
        (fun x => x ∉ NON_INDUSTRY_LABELS)) ≠ []
    ∧ (sort_industries ["半導體業", "創新板股票", "電子工業"]).Pairwise
        (fun a b => INDUSTRY_PRIORITY b ≤ INDUSTRY_PRIORITY a) :=
  ⟨by decide, by decide,
    ((industry_merge_spec ["半導體業", "創新板股票", "電子工業"]).2.1
      (by decide) (by decide)).2⟩

/-- C10 counterexample: five consecutive successes from a fresh state already
at the maximum batch size leave the success counter at 5 (no reset), and a
doubling at success 5 does not clear a pending error count — the claim says
the counters reset in both situations. -/
theorem adjust_counterexample :
    ((fun d => AdaptiveBatchDownloader.adjust d true)^[5]
        ⟨8, 1, 8, 10, 60, 0, 0⟩).success_count = 5
    ∧ (AdaptiveBatchDownloader.adjust ⟨4, 1, 8, 10, 60, 1, 4⟩ true).error_count = 1 := by
  constructor
  · decide
  · decide

/-- C10 amended: on success the success counter increments and, once it
reaches 5 with the batch size strictly below the maximum, the size doubles
(capped) and only the success counter resets — the error counter and interval
are untouched; on failure the error counter increments and, when
`errors / (successes + errors)` exceeds 20%, the size halves (floored at the
minimum), the interval doubles (capped at the maximum) and both counters
reset. -/
theorem adjust_spec (d : AdaptiveBatchDownloader) (hpos : 0 < d.batch_size) :
    ((d.adjust true).batch_size =
        if 4 ≤ d.success_count ∧ d.batch_size < d.max_batch_size
        then min (d.batch_size * 2) d.max_batch_size else d.batch_size)
    ∧ ((d.adjust true).success_count =
        if 4 ≤ d.success_count ∧ d.batch_size < d.max_batch_size then 0
        else d.success_count + 1)
    ∧ (d.adjust true).error_count = d.error_count
    ∧ (d.adjust true).batch_interval = d.batch_interval
    ∧ (d.adjust false =
        if 1/5 < ((d.error_count : ℚ) + 1) /
            ((d.success_count : ℚ) + (d.error_count : ℚ) + 1)
        then { d with
                batch_size := max (d.batch_size / 2) d.min_batch_size
                batch_interval := min (d.batch_interval * 2) d.max_interval
                error_count := 0
                success_count := 0 }
        else { d with error_count := d.error_count + 1 }) := by
  have hrate : ((d.error_count + 1 : Nat) : ℚ) /
      ((d.success_count + (d.error_count + 1) : Nat) : ℚ)
      = ((d.error_count : ℚ) + 1) /
        ((d.success_count : ℚ) + (d.error_count : ℚ) + 1) := by
    push_cast
    ring_nf
  refine ⟨?_, ?_, ?_, ?_, ?_⟩
  all_goals
    simp only [AdaptiveBatchDownloader.adjust, if_true, Bool.false_eq_true, if_false]
  · split
    · next hc =>
        rw [if_pos (by omega)]
        split
        · rfl
        · next hne =>
            exfalso
            apply hne
            have h2 : d.batch_size < d.batch_size * 2 := by omega
            have h3 : d.batch_size < d.max_batch_size := hc.2
            omega
    · next hc => rw [if_neg (by omega)]
  · split
    · next hc =>
        rw [if_pos (by omega)]
        split
        · rfl
        · next hne =>
            exfalso
            apply hne
            omega
    · next hc => rw [if_neg (by omega)]
  · split
    · split <;> rfl
    · rfl
  · split
    · split <;> rfl
    · rfl
  · rw [if_pos (by omega : (0:Nat) < d.success_count + (d.error_count + 1))]
    rw [hrate]

/-- C10 amended witness: the 5th success with a pending error doubles the
batch 4 → 8 but leaves the error counter at 1. -/
theorem adjust_witness :
    ((⟨4, 1, 8, 10, 60, 1, 4⟩ : AdaptiveBatchDownloader).adjust true).batch_size = 8
    ∧ ((⟨4, 1, 8, 10, 60, 1, 4⟩ : AdaptiveBatchDownloader).adjust true).error_count = 1
    ∧ ((⟨4, 1, 8, 10, 60, 1, 4⟩ : AdaptiveBatchDownloader).adjust true).success_count = 0 := by
  have h := adjust_spec ⟨4, 1, 8, 10, 60, 1, 4⟩ (by decide)
  exact ⟨h.1.trans (by decide), h.2.2.1.trans (by decide), h.2.1.trans (by decide)⟩

/-- Unfolding of `calculate_market_return`, with the shrunk lookback written
as a `min`. -/
theorem calculate_market_return_eq (market : List IndexRow) (target lookback : Nat) :
    calculate_market_return market target lookback =
      if market = [] then 0
      else if obsOnOrBefore market target = [] then 0
      else if min lookback ((obsOnOrBefore market target).length - 1) = 0 then 0
      else
        match ((sortIndexByDate market).get?
                  ((obsOnOrBefore market target).length - 1)).bind IndexRow.taiex,
              ((sortIndexByDate market).get?
                  ((obsOnOrBefore market target).length - 1 -
                    min lookback ((obsOnOrBefore market target).length - 1))).bind
                IndexRow.taiex with
        | some current_price, some past_price =>
            if past_price = 0 then 0 else (current_price - past_price) / past_price
        | some _, none => 0
        | none, _ => 0 := by
  have hmin : (if (obsOnOrBefore market target).length - 1 < lookback
      then (obsOnOrBefore market target).length - 1 else lookback)
      = min lookback ((obsOnOrBefore market target).length - 1) := by
    split <;> omega
  unfold calculate_market_return
  simp only []
  rw [hmin]

/-- C8: the market-return helper uses the last observation on or before the
target date; it shrinks the lookback to the available prior-observation count;
and it returns 0 on an empty series, no observation before the target, a zero
(shrunk) lookback, a missing endpoint, or a zero past price — otherwise it
returns `(current - past) / past`. -/
theorem calculate_market_return_spec (market : List IndexRow) (target lookback : Nat) :
    (market = [] → calculate_market_return market target lookback = 0)
    ∧ (obsOnOrBefore market target = [] →
        calculate_market_return market target lookback = 0)
    ∧ ((obsOnOrBefore market target).length - 1 < lookback →
        calculate_market_return market target lookback
          = calculate_market_return market target
              ((obsOnOrBefore market target).length - 1))
    ∧ (min lookback ((obsOnOrBefore market target).length - 1) = 0 →
        calculate_market_return market target lookback = 0)
    ∧ (∀ current past : ℚ,
        0 < min lookback ((obsOnOrBefore market target).length - 1) →
        ((sortIndexByDate market).get?
            ((obsOnOrBefore market target).length - 1)).bind IndexRow.taiex
          = some current →
        ((sortIndexByDate market).get?
            ((obsOnOrBefore market target).length - 1 -
              min lookback ((obsOnOrBefore market target).length - 1))).bind
          IndexRow.taiex = some past →
        calculate_market_return market target lookback
          = if past = 0 then 0 else (current - past) / past)
    ∧ (0 < min lookback ((obsOnOrBefore market target).length - 1) →
        (((sortIndexByDate market).get?
            ((obsOnOrBefore market target).length - 1)).bind IndexRow.taiex = none
          ∨ ((sortIndexByDate market).get?
              ((obsOnOrBefore market target).length - 1 -
                min lookback ((obsOnOrBefore market target).length - 1))).bind
            IndexRow.taiex = none) →
        calculate_market_return market target lookback = 0) := by
  refine ⟨?_, ?_, ?_, ?_, ?_, ?_⟩
  · intro h
    rw [calculate_market_return_eq, if_pos h]
  · intro h
    rw [calculate_market_return_eq]
    by_cases h0 : market = [] <;> simp [h0, h]
  · intro h
    rw [calculate_market_return_eq, calculate_market_return_eq]
    rw [show min lookback ((obsOnOrBefore market target).length - 1)
          = (obsOnOrBefore market target).length - 1 from by omega,
        show min ((obsOnOrBefore market target).length - 1)
            ((obsOnOrBefore market target).length - 1)
          = (obsOnOrBefore market target).length - 1 from by omega]
  · intro h
    rw [calculate_market_return_eq]
    by_cases h0 : market = []
    · simp [h0]
    · by_cases hb : obsOnOrBefore market target = [] <;> simp [h0, hb, h]
  · intro current past hmin hc hp
    have hb : obsOnOrBefore market target ≠ [] := by
      intro h
      rw [h] at hmin
      simp at hmin
    have h0 : market ≠ [] := by
      intro h
      apply hb
      rw [h]
      rfl
    rw [calculate_market_return_eq, if_neg h0, if_neg hb, if_neg (by omega)]
    rw [hc, hp]
  · intro hmin hor
    have hb : obsOnOrBefore market target ≠ [] := by
      intro h
      rw [h] at hmin
      simp at hmin
    have h0 : market ≠ [] := by
      intro h
      apply hb
      rw [h]
      rfl
    rw [calculate_market_return_eq, if_neg h0, if_neg hb, if_neg (by omega)]
    rcases hor with hcn | hpn
    · rw [hcn]
    · rw [hpn]
      rcases hc : ((sortIndexByDate market).get?
          ((obsOnOrBefore market target).length - 1)).bind IndexRow.taiex with - | c
      · rfl
      · rfl

/-- C8 witness: an index history with 10 prior observations and
`lookback_days = 20` computes the same value as lookback 10. -/
theorem calculate_market_return_witness :
    ((obsOnOrBefore market11 10).length - 1 < 20)
    ∧ calculate_market_return market11 10 20
        = calculate_market_return market11 10 ((obsOnOrBefore market11 10).length - 1) :=
  ⟨by decide, (calculate_market_return_spec market11 10 20).2.2.1 (by decide)⟩

/-- Dropping duplicate keys (keep-last) only keeps rows of the input. -/
theorem mem_of_mem_dropDupKeysKeepLast {rows : PriceTable} {r : PriceRecord}
    (h : r ∈ dropDupKeysKeepLast rows) : r ∈ rows := by
  induction rows with
  | nil => simp [dropDupKeysKeepLast] at h
  | cons a rs ih =>
      rw [dropDupKeysKeepLast] at h
      split at h
      · exact List.mem_cons_of_mem a (ih h)
      · rcases List.mem_cons.mp h with h | h
        · exact h ▸ List.mem_cons_self a rs
        · exact List.mem_cons_of_mem a (ih h)

/-- Deduplication preserves which keys occur. -/
theorem any_key_dropDupKeysKeepLast (rows : PriceTable) (k : String × Nat) :
    (dropDupKeysKeepLast rows).any (fun r => r.key = k)
      = rows.any (fun r => r.key = k) := by
  induction rows with
  | nil => rfl
  | cons a rs ih =>
      rw [dropDupKeysKeepLast]
      split
      · next hdup =>
          rw [ih, List.any_cons]
          by_cases hk : a.key = k
          · obtain ⟨q, hq, hqk⟩ := List.any_eq_true.mp hdup
            rw [decide_eq_true_eq] at hqk
            have : rs.any (fun r => r.key = k) = true :=
              List.any_eq_true.mpr ⟨q, hq, by simp [hqk, hk]⟩
            simp [this]
          · simp [hk]
      · rw [List.any_cons, List.any_cons, ih]

/-- After keep-last deduplication, each key occurs on at most one row. -/
theorem rowsWithKey_dropDupKeysKeepLast_length (rows : PriceTable) (k : String × Nat) :
    (rowsWithKey (dropDupKeysKeepLast rows) k).length ≤ 1 := by
  induction rows with
  | nil => simp [dropDupKeysKeepLast, rowsWithKey]
  | cons a rs ih =>
      rw [dropDupKeysKeepLast]
      split
      · exact ih
      · next hdup =>
          unfold rowsWithKey
          rw [List.filter_cons]
          split
          · next hk =>
              rw [decide_eq_true_eq] at hk
              have hnone : rowsWithKey (dropDupKeysKeepLast rs) k = [] := by
                rw [rowsWithKey, List.filter_eq_nil_iff]
                intro q hq hqk
                rw [decide_eq_true_eq] at hqk
                exact absurd (List.any_eq_true.mpr
                  ⟨q, mem_of_mem_dropDupKeysKeepLast hq,
                    by rw [decide_eq_true_eq, hqk, hk]⟩) hdup
              rw [rowsWithKey] at hnone
              simp [hnone]
          · exact ih

/-- One per-date pass overwrites exactly the keys of that day's payload. -/
theorem rowsWithKey_upsertDay (st : PriceTable) (d : Nat) (day_rows : PriceTable)
    (hday : ∀ q ∈ day_rows, q.date = d) (k : String × Nat) :
    rowsWithKey (upsertDay st d day_rows) k =
      if day_rows.any (fun q => q.key = k) then rowsWithKey day_rows k
      else rowsWithKey st k := by
  unfold upsertDay rowsWithKey
  rw [List.filter_append]
  by_cases hany : day_rows.any (fun q => q.key = k) = true
  · rw [if_pos hany]
    obtain ⟨q, hq, hqk⟩ := List.any_eq_true.mp hany
    rw [decide_eq_true_eq] at hqk
    have hnil : (st.filter (fun r =>
        ¬(r.date = d ∧ r.stock_id ∈ day_rows.map PriceRecord.stock_id))).filter
          (fun r => r.key = k) = [] := by
      rw [List.filter_eq_nil_iff]
      intro r hr
      rw [List.mem_filter] at hr
      have hdel := of_decide_eq_true hr.2
      rw [decide_eq_true_eq]
      intro hkr
      apply hdel
      have h1 : r.stock_id = q.stock_id ∧ r.date = q.date := by
        have := hkr.trans hqk.symm
        simpa [PriceRecord.key, Prod.ext_iff] using this
      constructor
      · rw [h1.2, hday q hq]
      · rw [h1.1]
        exact List.mem_map_of_mem PriceRecord.stock_id hq
    rw [hnil, List.nil_append]
  · rw [if_neg hany]
    have hnone : ∀ q ∈ day_rows, ¬(q.key = k) := by
      intro q hq hqk
      exact hany (List.any_eq_true.mpr ⟨q, hq, by simp [hqk]⟩)
    have hday_nil : day_rows.filter (fun r => r.key = k) = [] := by
      rw [List.filter_eq_nil_iff]
      intro q hq
      simpa using hnone q hq
    rw [hday_nil, List.append_nil]
    rw [List.filter_filter]
    apply List.filter_congr
    intro r hr
    by_cases hk : r.key = k
    · have hdel : ¬(r.date = d ∧ r.stock_id ∈ day_rows.map PriceRecord.stock_id) := by
        intro hc
        obtain ⟨q, hq, hqs⟩ := List.mem_map.mp hc.2
        apply hnone q hq
        rw [← hk]
        have hqd : q.date = r.date := by rw [hday q hq, hc.1]
        simp [PriceRecord.key, Prod.ext_iff, hqs, hqd]
      rw [decide_eq_true hk, decide_eq_true hdel]
      rfl
    · rw [decide_eq_false hk]
      rfl

/-- The per-date fold leaves a key at its payload value when the payload
mentions it and untouched otherwise. -/
theorem rowsWithKey_upsert_fold (df : PriceTable) (ds : List Nat) (st : PriceTable)
    (k : String × Nat) :
    rowsWithKey (ds.foldl
        (fun st d => upsertDay st d (df.filter (fun r => r.date = d))) st) k =
      if k.2 ∈ ds ∧ df.any (fun r => r.key = k) then rowsWithKey df k
      else rowsWithKey st k := by
  induction ds generalizing st with
  | nil => simp
  | cons d ds ih =>
      rw [List.foldl_cons, ih]
      have hday : ∀ q ∈ df.filter (fun r => r.date = d), q.date = d := by
        intro q hq
        simpa using (List.mem_filter.mp hq).2
      rw [rowsWithKey_upsertDay _ _ _ hday]
      have hsplit : (df.filter (fun r => r.date = d)).any (fun q => q.key = k) = true ↔
          k.2 = d ∧ df.any (fun r => r.key = k) = true := by
        constructor
        · intro h
          obtain ⟨q, hq, hqk⟩ := List.any_eq_true.mp h
          rw [List.mem_filter] at hq
          rw [decide_eq_true_eq] at hqk
          refine ⟨?_, List.any_eq_true.mpr ⟨q, hq.1, by rw [decide_eq_true_eq]; exact hqk⟩⟩
          rw [← hqk]
          simpa [PriceRecord.key] using of_decide_eq_true hq.2
        · intro ⟨hkd, h⟩
          obtain ⟨q, hq, hqk⟩ := List.any_eq_true.mp h
          rw [decide_eq_true_eq] at hqk
          refine List.any_eq_true.mpr ⟨q, List.mem_filter.mpr ⟨hq, ?_⟩, by simp [hqk]⟩
          have : q.date = k.2 := by simp [← hqk, PriceRecord.key]
          simp [this, hkd]
      have hfil : k.2 = d →
          rowsWithKey (df.filter (fun r => r.date = d)) k = rowsWithKey df k := by
        intro hkd
        unfold rowsWithKey
        rw [List.filter_filter]
        apply List.filter_congr
        intro r hr
        by_cases hk : r.key = k
        · have : r.date = d := by simp [← hkd, ← hk, PriceRecord.key]
          simp [hk, this]
        · simp [hk]
      by_cases h1 : k.2 ∈ ds ∧ df.any (fun r => r.key = k) = true
      · rw [if_pos h1, if_pos ⟨List.mem_cons_of_mem d h1.1, h1.2⟩]
      · rw [if_neg h1]
        by_cases h2 : (df.filter (fun r => r.date = d)).any (fun q => q.key = k) = true
        · obtain ⟨hkd, hdf⟩ := hsplit.mp h2
          rw [if_pos h2, if_pos ⟨by simp [hkd], hdf⟩]
          exact hfil hkd
        · rw [if_neg h2]
          rw [if_neg ?_]
          intro ⟨hmem, hdf⟩
          rcases List.mem_cons.mp hmem with hkd | hds
          · exact h2 (hsplit.mpr ⟨hkd, hdf⟩)
          · exact h1 ⟨hds, hdf⟩

/-- A row of the deduplicated payload has its date among the payload dates. -/
theorem date_mem_uniqueDates {df : PriceTable} {r : PriceRecord} (h : r ∈ df) :
    r.date ∈ uniqueDates df := by
  have hgen : ∀ (l : List Nat) (acc : List Nat) (x : Nat), x ∈ acc ∨ x ∈ l →
      x ∈ l.foldl (fun acc d => if d ∈ acc then acc else acc ++ [d]) acc := by
    intro l
    induction l with
    | nil => intro acc x hx; rcases hx with hx | hx; exact hx; cases hx
    | cons d ds ih =>
        intro acc x hx
        rw [List.foldl_cons]
        apply ih
        by_cases hd : d ∈ acc
        · rw [if_pos hd]
          rcases hx with hx | hx
          · exact Or.inl hx
          · rcases List.mem_cons.mp hx with hx | hx
            · exact Or.inl (hx ▸ hd)
            · exact Or.inr hx
        · rw [if_neg hd]
          rcases hx with hx | hx
          · exact Or.inl (List.mem_append_left _ hx)
          · rcases List.mem_cons.mp hx with hx | hx
            · exact Or.inl (List.mem_append_right _ (by simp [hx]))
            · exact Or.inr hx
  exact hgen _ [] r.date (Or.inr (List.mem_map_of_mem PriceRecord.date h))

/-- Full characterization of `upsert_daily_price` as a keyed store: a key is
replaced by its (keep-last deduplicated) payload row when the payload mentions
it, and untouched otherwise. -/
theorem rowsWithKey_upsert_daily_price (store rows : PriceTable) (k : String × Nat) :
    rowsWithKey (upsert_daily_price store rows) k =
      if rows.any (fun r => r.key = k)
      then rowsWithKey (dropDupKeysKeepLast rows) k
      else rowsWithKey store k := by
  unfold upsert_daily_price
  rw [rowsWithKey_upsert_fold]
  rw [any_key_dropDupKeysKeepLast]
  by_cases hany : rows.any (fun r => r.key = k) = true
  · rw [if_pos hany]
    have hk2 : k.2 ∈ uniqueDates (dropDupKeysKeepLast rows) ∧
        rows.any (fun r => r.key = k) = true := by
      refine ⟨?_, hany⟩
      have h2 : (dropDupKeysKeepLast rows).any (fun r => r.key = k) = true := by
        rw [any_key_dropDupKeysKeepLast]; exact hany
      obtain ⟨q, hq, hqk⟩ := List.any_eq_true.mp h2
      rw [decide_eq_true_eq] at hqk
      have := date_mem_uniqueDates hq
      rwa [show q.date = k.2 from by simp [← hqk, PriceRecord.key]] at this
    rw [if_pos hk2]
  · rw [if_neg hany, if_neg (fun h => hany h.2)]

/-- C7: the daily-price upsert is idempotent on the stored key-value view,
replaces exactly the payload's (symbol, date) keys — leaving each with a
single row when the store was well-keyed — and never touches any other
symbol's or date's bars. -/
theorem upsert_daily_price_spec (store rows : PriceTable) (hw : WellKeyed store) :
    (∀ k, rowsWithKey (upsert_daily_price (upsert_daily_price store rows) rows) k
        = rowsWithKey (upsert_daily_price store rows) k)
    ∧ WellKeyed (upsert_daily_price store rows)
    ∧ (∀ k, rows.any (fun r => r.key = k) = true →
        rowsWithKey (upsert_daily_price store rows) k
          = rowsWithKey (dropDupKeysKeepLast rows) k
        ∧ (rowsWithKey (upsert_daily_price store rows) k).length = 1)
    ∧ (∀ k, ¬ rows.any (fun r => r.key = k) = true →
        rowsWithKey (upsert_daily_price store rows) k = rowsWithKey store k) := by
  refine ⟨?_, ?_, ?_, ?_⟩
  · intro k
    rw [rowsWithKey_upsert_daily_price, rowsWithKey_upsert_daily_price]
    by_cases hany : rows.any (fun r => r.key = k) = true <;> simp [hany]
  · intro k
    rw [rowsWithKey_upsert_daily_price]
    by_cases hany : rows.any (fun r => r.key = k) = true
    · rw [if_pos hany]
      exact rowsWithKey_dropDupKeysKeepLast_length rows k
    · rw [if_neg hany]
      exact hw k
  · intro k hany
    rw [rowsWithKey_upsert_daily_price, if_pos hany]
    refine ⟨rfl, ?_⟩
    have hle := rowsWithKey_dropDupKeysKeepLast_length rows k
    have hne : rowsWithKey (dropDupKeysKeepLast rows) k ≠ [] := by
      intro hnil
      obtain ⟨q, hq, hqk⟩ := List.any_eq_true.mp hany
      rw [decide_eq_true_eq] at hqk
      have h2 : (dropDupKeysKeepLast rows).any (fun r => r.key = k) = true := by
        rw [any_key_dropDupKeysKeepLast]; exact hany
      obtain ⟨p, hp, hpk⟩ := List.any_eq_true.mp h2
      have : p ∈ rowsWithKey (dropDupKeysKeepLast rows) k :=
        List.mem_filter.mpr ⟨hp, hpk⟩
      rw [hnil] at this
      cases this
    have hpos : 0 < (rowsWithKey (dropDupKeysKeepLast rows) k).length :=
      List.length_pos.mpr hne
    omega
  · intro k hany
    rw [rowsWithKey_upsert_daily_price, if_neg hany]

/-- A table whose rows carry pairwise-distinct keys is well-keyed. -/
theorem wellKeyed_of_pairwise {t : PriceTable}
    (h : t.Pairwise (fun a b => a.key ≠ b.key)) : WellKeyed t := by
  intro k
  induction t with
  | nil => simp [rowsWithKey]
  | cons a rows ih =>
      rw [List.pairwise_cons] at h
      unfold rowsWithKey
      rw [List.filter_cons]
      split
      · next hk =>
          rw [decide_eq_true_eq] at hk
          have hnil : rows.filter (fun r => r.key = k) = [] := by
            rw [List.filter_eq_nil_iff]
            intro q hq hqk
            rw [decide_eq_true_eq] at hqk
            exact h.1 q hq (hk.trans hqk.symm)
          rw [rowsWithKey] at *
          simp [hnil]
      · exact ih h.2

/-- C7 witness: on a concrete well-keyed store and a two-row payload, the bar
of an untouched date survives and the overwritten key holds a single row. -/
theorem upsert_daily_price_witness :
    (¬ demoRows.any (fun r => r.key = ("2330", 2)) = true)
    ∧ rowsWithKey (upsert_daily_price demoStore demoRows) ("2330", 2)
        = rowsWithKey demoStore ("2330", 2)
    ∧ (rowsWithKey (upsert_daily_price demoStore demoRows) ("2330", 1)).length = 1 :=
  ⟨by decide,
    (upsert_daily_price_spec demoStore demoRows
      (wellKeyed_of_pairwise (by decide))).2.2.2 ("2330", 2) (by decide),
    ((upsert_daily_price_spec demoStore demoRows
      (wellKeyed_of_pairwise (by decide))).2.2.1 ("2330", 1) (by decide)).2⟩

/-- C6: when yfinance returns a non-empty frame meeting the success-ratio
threshold but misses some requested symbols, the hybrid price operation issues
a gap-fill scoped to exactly the missing symbols and concatenates; a failed or
empty fill degrades to the partial yfinance frame; a fill scoped inside the
missing set can introduce no duplicate rows, and a fill covering the missing
set yields all requested symbols. -/
theorem hybrid_gap_fill_spec (stock_ids : List String) (primary_df : List FetchedRow)
    (fm : List String → FetchResult)
    (h0 : stock_ids ≠ []) (h1 : primary_df ≠ [])
    (h2 : ¬ ((fetchedSymbols primary_df).length : ℚ) / (stock_ids.length : ℚ)
        < minPriceRatio)
    (h3 : missingSymbols stock_ids primary_df ≠ []) :
    (∀ fill_df, fm (missingSymbols stock_ids primary_df) = .ok fill_df →
        fill_df ≠ [] →
        hybrid_get_stock_price stock_ids (.ok primary_df) fm = primary_df ++ fill_df)
    ∧ (fm (missingSymbols stock_ids primary_df) = .error () →
        hybrid_get_stock_price stock_ids (.ok primary_df) fm = primary_df)
    ∧ (fm (missingSymbols stock_ids primary_df) = .ok [] →
        hybrid_get_stock_price stock_ids (.ok primary_df) fm = primary_df)
    ∧ (∀ fill_df : List FetchedRow,
        (∀ r ∈ fill_df, r.stock_id ∈ missingSymbols stock_ids primary_df) →
        primary_df.Nodup → fill_df.Nodup → (primary_df ++ fill_df).Nodup)
    ∧ (∀ fill_df : List FetchedRow,
        (∀ m ∈ missingSymbols stock_ids primary_df, m ∈ fetchedSymbols fill_df) →
        ∀ s ∈ stock_ids, s ∈ fetchedSymbols (primary_df ++ fill_df)) := by
  have hbody : ∀ res : List FetchedRow,
      (match fm (missingSymbols stock_ids primary_df) with
        | .error _ => primary_df
        | .ok fill_df => if fill_df = [] then primary_df else primary_df ++ fill_df) = res →
      hybrid_get_stock_price stock_ids (.ok primary_df) fm = res := by
    intro res hres
    unfold hybrid_get_stock_price
    rw [if_neg h0]
    simp only []
    rw [if_neg h1, if_neg h2, if_neg h3]
    exact hres
  refine ⟨?_, ?_, ?_, ?_, ?_⟩
  · intro fill_df hfm hfill
    apply hbody
    rw [hfm]
    simp only []
    rw [if_neg hfill]
  · intro hfm
    apply hbody
    rw [hfm]
  · intro hfm
    apply hbody
    rw [hfm]
    simp
  · intro fill_df hscope hp hf
    rw [List.nodup_append]
    refine ⟨hp, hf, ?_⟩
    intro r hrp hrf
    have h1m : r.stock_id ∈ fetchedSymbols primary_df := by
      rw [fetchedSymbols, List.mem_dedup]
      exact List.mem_map_of_mem FetchedRow.stock_id hrp
    have h2m := hscope r hrf
    rw [missingSymbols, List.mem_filter] at h2m
    exact absurd h1m (by simpa using h2m.2)
  · intro fill_df hcover s hs
    have hmem : ∀ (df : List FetchedRow) (x : String),
        x ∈ fetchedSymbols df ↔ x ∈ df.map FetchedRow.stock_id := by
      intro df x
      rw [fetchedSymbols, List.mem_dedup]
    by_cases hsp : s ∈ fetchedSymbols primary_df
    · rw [hmem, List.map_append, List.mem_append]
      exact Or.inl ((hmem primary_df s).mp hsp)
    · have hsm : s ∈ missingSymbols stock_ids primary_df := by
        rw [missingSymbols, List.mem_filter]
        exact ⟨List.mem_dedup.mpr hs, by simpa using hsp⟩
      have := hcover s hsm
      rw [hmem, List.map_append, List.mem_append]
      exact Or.inr ((hmem fill_df s).mp this)

/-- C6 witness: requesting three symbols with yfinance covering two, the
gap-fill fetches exactly the third and the union holds all three with no
duplicate rows. -/
theorem hybrid_gap_fill_witness :
    missingSymbols gfIds gfPrimary = ["2317"]
    ∧ hybrid_get_stock_price gfIds (.ok gfPrimary) gfFm = gfPrimary ++ gfFill
    ∧ (gfPrimary ++ gfFill).Nodup :=
  ⟨by decide,
    (hybrid_gap_fill_spec gfIds gfPrimary gfFm (by decide) (by decide)
        (by
          have ha : (fetchedSymbols gfPrimary).length = 2 := by decide
          have hb : gfIds.length = 3 := by decide
          rw [ha, hb]
          norm_num [minPriceRatio])
        (by decide)).1 gfFill rfl (by decide),
    (hybrid_gap_fill_spec gfIds gfPrimary gfFm (by decide) (by decide)
        (by
          have ha : (fetchedSymbols gfPrimary).length = 2 := by decide
          have hb : gfIds.length = 3 := by decide
          rw [ha, hb]
          norm_num [minPriceRatio])
        (by decide)).2.2.2.1 gfFill (by decide) (by decide) (by decide)⟩

/-- Size bounds on the rolling window. -/
theorem length_windowAt_le (xs : List (Option ℚ)) (i n : Nat) :
    (windowAt xs i n).length ≤ min (i + 1) xs.length
    ∧ (windowAt xs i n).length ≤ n := by
  unfold windowAt
  rw [List.length_drop, List.length_take]
  omega

/-- The valid values are no more numerous than the window. -/
theorem validVals_length_le (w : List (Option ℚ)) :
    (validVals w).length ≤ w.length :=
  List.length_filterMap_le _ _

/-- The SMA is undefined exactly when the window holds fewer than `n` valid
observations. -/
theorem smaAt_eq_none_iff (n : Nat) (xs : List (Option ℚ)) (i : Nat) :
    smaAt n xs i = none ↔ (validVals (windowAt xs i n)).length < n := by
  simp only [smaAt, rollingMean]
  split
  · next h => simp [h]
  · next h => simp [h]

/-- A row with fewer than `n` prior observations has no `MA(n)`. -/
theorem smaAt_of_few_rows (n : Nat) (xs : List (Option ℚ)) (i : Nat)
    (h : i + 1 < n) : smaAt n xs i = none := by
  rw [smaAt_eq_none_iff]
  have h1 := length_windowAt_le xs i n
  have h2 := validVals_length_le (windowAt xs i n)
  omega

/-- A series shorter than `n` has no `MA(n)` anywhere. -/
theorem smaAt_of_short_series (n : Nat) (xs : List (Option ℚ)) (i : Nat)
    (h : xs.length < n) : smaAt n xs i = none := by
  rw [smaAt_eq_none_iff]
  have h1 := length_windowAt_le xs i n
  have h2 := validVals_length_le (windowAt xs i n)
  omega

/-- With a full window of valid observations the SMA is their mean. -/
theorem smaAt_of_full (n : Nat) (xs : List (Option ℚ)) (i : Nat)
    (h : n ≤ (validVals (windowAt xs i n)).length) :
    (validVals (windowAt xs i n)).length = n
    ∧ smaAt n xs i = some ((validVals (windowAt xs i n)).sum / (n : ℚ)) := by
  have h1 := length_windowAt_le xs i n
  have h2 := validVals_length_le (windowAt xs i n)
  have hlen : (validVals (windowAt xs i n)).length = n := by omega
  refine ⟨hlen, ?_⟩
  simp only [smaAt, rollingMean]
  rw [if_neg (by omega), hlen]

/-- The rolling high is defined exactly when at least `max(n/2, 1)` valid
observations are in the window. -/
theorem rollingHighAt_isSome_iff (n : Nat) (xs : List (Option ℚ)) (i : Nat) :
    (rollingHighAt n xs i).isSome = true ↔
      highLowMinPeriods n ≤ (validVals (windowAt xs i n)).length := by
  simp only [rollingHighAt, rollingMax]
  split
  · next h => simp; omega
  · next h =>
      rw [not_lt] at h
      simp only [iff_true, h]
      rcases hv : validVals (windowAt xs i n) with - | ⟨a, t⟩
      · rw [hv] at h
        have : 1 ≤ highLowMinPeriods n := by unfold highLowMinPeriods; omega
        simp at h
        omega
      · simp [List.max?_cons]

/-- The rolling low is defined exactly when at least `max(n/2, 1)` valid
observations are in the window. -/
theorem rollingLowAt_isSome_iff (n : Nat) (xs : List (Option ℚ)) (i : Nat) :
    (rollingLowAt n xs i).isSome = true ↔
      highLowMinPeriods n ≤ (validVals (windowAt xs i n)).length := by
  simp only [rollingLowAt, rollingMin]
  split
  · next h => simp; omega
  · next h =>
      rw [not_lt] at h
      simp only [iff_true, h]
      rcases hv : validVals (windowAt xs i n) with - | ⟨a, t⟩
      · rw [hv] at h
        have : 1 ≤ highLowMinPeriods n := by unfold highLowMinPeriods; omega
        simp at h
        omega
      · simp [List.min?_cons]

/-- Every row generated for a series carries its symbol. -/
theorem stockId_of_mem_prepareVcpSeries {s : StockSeries} {r : VcpRow}
    (h : r ∈ prepareVcpSeries s) : r.stock_id = s.stock_id := by
  simp only [prepareVcpSeries, List.mem_map, List.mem_range] at h
  obtain ⟨i, -, rfl⟩ := h
  rfl

/-- The indicator rows of one symbol are computed from that symbol's series
alone: filtering the whole frame's rows to a symbol recovers exactly the rows
computed from its own series. -/
theorem prepareVcp_filter_stock (f : List StockSeries) (s : StockSeries)
    (hs : s ∈ f) (hids : (f.map StockSeries.stock_id).Nodup) :
    (prepareVcp f).filter (fun r => r.stock_id = s.stock_id)
      = prepareVcpSeries s := by
  induction f with
  | nil => cases hs
  | cons t ts ih =>
      rw [List.map_cons, List.nodup_cons] at hids
      simp only [prepareVcp, List.flatMap_cons, List.filter_append]
      rcases List.mem_cons.mp hs with rfl | hs'
      · have h1 : (prepareVcpSeries s).filter (fun r => r.stock_id = s.stock_id)
            = prepareVcpSeries s := by
          rw [List.filter_eq_self]
          intro r hr
          simp [stockId_of_mem_prepareVcpSeries hr]
        have h2 : (ts.flatMap prepareVcpSeries).filter
            (fun r => r.stock_id = s.stock_id) = [] := by
          rw [List.filter_eq_nil_iff]
          intro r hr hkr
          obtain ⟨u, hu, hru⟩ := List.mem_flatMap.mp hr
          rw [decide_eq_true_eq, stockId_of_mem_prepareVcpSeries hru] at hkr
          exact hids.1 (hkr ▸ List.mem_map_of_mem StockSeries.stock_id hu)
        rw [h1, h2, List.append_nil]
      · have h1 : (prepareVcpSeries t).filter
            (fun r => r.stock_id = s.stock_id) = [] := by
          rw [List.filter_eq_nil_iff]
          intro r hr hkr
          rw [decide_eq_true_eq, stockId_of_mem_prepareVcpSeries hr] at hkr
          exact hids.1 (hkr ▸ List.mem_map_of_mem StockSeries.stock_id hs')
        rw [h1, List.nil_append]
        exact ih hs' hids.2

/-- C9: `MA(n)` is undefined on every row whose trailing window holds fewer
than `n` valid observations (in particular on the first `n - 1` rows), and is
the full-window mean otherwise; the rolling high/low instead report a value as
soon as `max(n/2, 1)` valid observations exist; and each symbol's indicator
rows are computed from its own series alone. -/
theorem indicator_engine_spec :
    (∀ (n : Nat) (xs : List (Option ℚ)) (i : Nat),
        smaAt n xs i = none ↔ (validVals (windowAt xs i n)).length < n)
    ∧ (∀ (n : Nat) (xs : List (Option ℚ)) (i : Nat),
        i + 1 < n → smaAt n xs i = none)
    ∧ (∀ (n : Nat) (xs : List (Option ℚ)) (i : Nat),
        n ≤ (validVals (windowAt xs i n)).length →
        (validVals (windowAt xs i n)).length = n
        ∧ smaAt n xs i = some ((validVals (windowAt xs i n)).sum / (n : ℚ)))
    ∧ (∀ (n : Nat) (xs : List (Option ℚ)) (i : Nat),
        (rollingHighAt n xs i).isSome = true ↔
          highLowMinPeriods n ≤ (validVals (windowAt xs i n)).length)
    ∧ (∀ (n : Nat) (xs : List (Option ℚ)) (i : Nat),
        (rollingLowAt n xs i).isSome = true ↔
          highLowMinPeriods n ≤ (validVals (windowAt xs i n)).length)
    ∧ (∀ (f : List StockSeries) (s : StockSeries), s ∈ f →
        (f.map StockSeries.stock_id).Nodup →
        (prepareVcp f).filter (fun r => r.stock_id = s.stock_id)
          = prepareVcpSeries s) :=
  ⟨smaAt_eq_none_iff, smaAt_of_few_rows, smaAt_of_full,
    rollingHighAt_isSome_iff, rollingLowAt_isSome_iff,
    fun f s hs hids => prepareVcp_filter_stock f s hs hids⟩

/-- C9 witness: on a 21-bar single-symbol frame, `MA(50)` is undefined on the
first row and the symbol filter recovers the series' own rows. -/
theorem indicator_engine_witness :
    (0 + 1 < 50)
    ∧ smaAt 50 (vcpShortSeries.bars.map Bar.close_price) 0 = none
    ∧ vcpShortSeries ∈ vcpShortFrame
    ∧ (vcpShortFrame.map StockSeries.stock_id).Nodup
    ∧ (prepareVcp vcpShortFrame).filter
        (fun r => r.stock_id = vcpShortSeries.stock_id)
      = prepareVcpSeries vcpShortSeries :=
  ⟨by decide,
    indicator_engine_spec.2.1 50 (vcpShortSeries.bars.map Bar.close_price) 0 (by decide),
    by decide, by decide,
    indicator_engine_spec.2.2.2.2.2 vcpShortFrame vcpShortSeries (by decide) (by decide)⟩

set_option maxRecDepth 4000 in
/-- Membership in the VCP output, unfolded to the indicator row it came from. -/
theorem mem_vcpFilter_iff (tolerance market_return_20d : ℚ) (target_date : Nat)
    (f : List StockSeries) (res : VcpResult) :
    res ∈ vcpFilter tolerance f market_return_20d target_date ↔
      ∃ r ∈ prepareVcp f, r.date = target_date ∧
        toVcpResult tolerance market_return_20d r = res ∧
        (res.is_strong || res.is_new_high) = true := by
  unfold vcpFilter
  simp only [List.mem_filter, List.mem_map, decide_eq_true_eq, Bool.or_eq_true]
  constructor
  · rintro ⟨⟨r, ⟨hr, hd⟩, hres⟩, hflag⟩
    exact ⟨r, hr, hd, hres, hflag⟩
  · rintro ⟨r, hr, hd, hres, hflag⟩
    exact ⟨⟨r, ⟨hr, hd⟩, hres⟩, hflag⟩

/-- The strong mask as a proposition. -/
theorem strongCond_iff (r : VcpRow) :
    strongCond r = true ↔
      (fillInf r.ma50 < ((r.close_price.getD 0 : ℚ) : WithTop ℚ)
        ∧ fillInf r.ma150 < fillInf r.ma50
        ∧ fillInf r.ma200 < fillInf r.ma150
        ∧ 0 < r.ma200_slope_20d.getD (-1)) := by
  simp [strongCond, Bool.and_eq_true, and_assoc]

/-- The new-high mask as a proposition. -/
theorem newHighCond_iff (tolerance : ℚ) (r : VcpRow) :
    newHighCond tolerance r = true ↔
      (|r.high_5d.getD 0 /
          (if r.high_252d.getD 1 = 0 then 1 else r.high_252d.getD 1) - 1|
        ≤ tolerance
        ∧ 0 < r.high_252d.getD 1) := by
  simp [newHighCond, Bool.and_eq_true]

/-- The beats-the-benchmark mask as a proposition. -/
theorem beatMarketCond_iff (market_return_20d : ℚ) (r : VcpRow) :
    beatMarketCond market_return_20d r = true ↔
      (market_return_20d : WithBot ℚ) < fillNegInf r.return_20d := by
  simp [beatMarketCond]

set_option maxRecDepth 16000 in
/-- A series shorter than 200 bars has `ma200 = none` on every row. -/
theorem ma200_eq_none_of_short {s : StockSeries} (hlen : s.bars.length < 200) :
    ∀ r ∈ prepareVcpSeries s, r.ma200 = none := by
  intro r hr
  simp only [prepareVcpSeries, List.mem_map, List.mem_range] at hr
  obtain ⟨i, -, rfl⟩ := hr
  show smaAt 200 (s.bars.map Bar.close_price) i = none
  apply smaAt_of_short_series
  rw [List.length_map]
  exact hlen

/-- C1: a stock is flagged `is_strong` iff, on its target-date indicator row
and under the code's fail-safe defaults (close 0, MA fields `⊤`, slope -1,
return `⊥`), close > MA50 > MA150 > MA200, the 20-day MA200 slope is positive
and the 20-day return beats the benchmark; in particular a symbol with fewer
than 200 bars is never flagged `is_strong`. -/
theorem vcp_is_strong_iff (tolerance market_return_20d : ℚ) (target_date : Nat)
    (f : List StockSeries) (hids : (f.map StockSeries.stock_id).Nodup)
    (hpos : PosCloses f) :
    (∀ sid : String,
      (∃ res ∈ vcpFilter tolerance f market_return_20d target_date,
          res.stock_id = sid ∧ res.is_strong = true) ↔
      (∃ r ∈ prepareVcp f, r.stock_id = sid ∧ r.date = target_date ∧
          fillInf r.ma50 < ((r.close_price.getD 0 : ℚ) : WithTop ℚ)
          ∧ fillInf r.ma150 < fillInf r.ma50
          ∧ fillInf r.ma200 < fillInf r.ma150
          ∧ 0 < r.ma200_slope_20d.getD (-1)
          ∧ (market_return_20d : WithBot ℚ) < fillNegInf r.return_20d))
    ∧ (∀ s ∈ f, s.bars.length < 200 →
        ∀ res ∈ vcpFilter tolerance f market_return_20d target_date,
          res.stock_id = s.stock_id → res.is_strong = false) := by
  constructor
  · intro sid
    constructor
    · rintro ⟨res, hres, hsid, hstrong⟩
      obtain ⟨r, hr, hd, htor, -⟩ :=
        (mem_vcpFilter_iff tolerance market_return_20d target_date f res).mp hres
      have hflag : (strongCond r && beatMarketCond market_return_20d r) = true := by
        rw [show (strongCond r && beatMarketCond market_return_20d r)
              = (toVcpResult tolerance market_return_20d r).is_strong from rfl, htor]
        exact hstrong
      rw [Bool.and_eq_true] at hflag
      obtain ⟨hsc, hbc⟩ := hflag
      obtain ⟨h1, h2, h3, h4⟩ := (strongCond_iff r).mp hsc
      refine ⟨r, hr, ?_, hd, h1, h2, h3, h4, (beatMarketCond_iff _ _).mp hbc⟩
      rw [show r.stock_id
            = (toVcpResult tolerance market_return_20d r).stock_id from rfl, htor]
      exact hsid
    · rintro ⟨r, hr, hsid, hd, h1, h2, h3, h4, h5⟩
      have hsc : strongCond r = true := (strongCond_iff r).mpr ⟨h1, h2, h3, h4⟩
      have hbc : beatMarketCond market_return_20d r = true :=
        (beatMarketCond_iff _ _).mpr h5
      have hstrong : (toVcpResult tolerance market_return_20d r).is_strong = true := by
        show (strongCond r && beatMarketCond market_return_20d r) = true
        rw [hsc, hbc]
        rfl
      refine ⟨toVcpResult tolerance market_return_20d r, ?_, hsid, hstrong⟩
      apply (mem_vcpFilter_iff tolerance market_return_20d target_date f _).mpr
      exact ⟨r, hr, hd, rfl, by rw [hstrong]; rfl⟩
  · intro s hs hlen res hres hsid
    obtain ⟨r, hr, hd, htor, -⟩ :=
      (mem_vcpFilter_iff tolerance market_return_20d target_date f res).mp hres
    obtain ⟨t, ht, hrt⟩ := List.mem_flatMap.mp hr
    have hts : t = s := by
      apply List.inj_on_of_nodup_map hids ht hs
      calc t.stock_id = r.stock_id := (stockId_of_mem_prepareVcpSeries hrt).symm
        _ = res.stock_id := by rw [← htor]; rfl
        _ = s.stock_id := hsid
    have hma : r.ma200 = none := by
      apply ma200_eq_none_of_short (s := s) hlen
      rw [← hts]
      exact hrt
    have hsc : strongCond r = false := by
      have hdec : decide (fillInf r.ma200 < fillInf r.ma150) = false := by
        rw [hma, show fillInf (none : Option ℚ) = (⊤ : WithTop ℚ) from rfl]
        exact decide_eq_false not_top_lt
      unfold strongCond
      rw [hdec]
      simp
    rw [show res.is_strong = (toVcpResult tolerance market_return_20d r).is_strong
          from by rw [htor], show (toVcpResult tolerance market_return_20d r).is_strong
          = (strongCond r && beatMarketCond market_return_20d r) from rfl, hsc]
    rfl

/-- C1 witness: on a positive-close 21-bar frame (MA200 undefined) no stock is
flagged `is_strong`. -/
theorem vcp_is_strong_witness :
    PosCloses vcpShortFrame
    ∧ vcpShortSeries.bars.length < 200
    ∧ (∀ res ∈ vcpFilter (1/10) vcpShortFrame (-1) 20,
        res.stock_id = vcpShortSeries.stock_id → res.is_strong = false) :=
  ⟨by decide, by decide,
    (vcp_is_strong_iff (1/10) (-1) 20 vcpShortFrame (by decide) (by decide)).2
      vcpShortSeries (by decide) (by decide)⟩

/-- C2 counterexample: on a 21-bar series with all highs 1 and the benchmark
at -1, the filter flags the stock `is_new_high` although its target-date
`high_252d` is undefined (so the claimed condition `high_252d > 0` has no
witnessing value): the missing `high_252d` was defaulted to 1. -/
theorem vcp_new_high_counterexample :
    (∃ res ∈ vcpFilter (1/10) vcpShortFrame (-1) 20,
        res.stock_id = "1101" ∧ res.is_new_high = true)
    ∧ (∀ r ∈ prepareVcp vcpShortFrame, r.date = 20 → r.high_252d = none) := by
  constructor
  · with_unfolding_all decide
  · with_unfolding_all decide

/-- C2 amended: a stock is flagged `is_new_high` iff, on its target-date
indicator row and after the code's defaulting (missing `high_5d` as 0, missing
`high_252d` as 1, a zero denominator replaced by 1),
`|high_5d / high_252d - 1| ≤ tolerance`, the defaulted `high_252d` is
positive, and the 20-day return beats the benchmark; and the output holds
exactly the target-date rows whose strong or new-high mask passes together
with the benchmark mask (the union). -/
theorem vcp_new_high_iff (tolerance market_return_20d : ℚ) (target_date : Nat)
    (f : List StockSeries) (hpos : PosCloses f) :
    (∀ sid : String,
      (∃ res ∈ vcpFilter tolerance f market_return_20d target_date,
          res.stock_id = sid ∧ res.is_new_high = true) ↔
      (∃ r ∈ prepareVcp f, r.stock_id = sid ∧ r.date = target_date ∧
          |r.high_5d.getD 0 /
              (if r.high_252d.getD 1 = 0 then 1 else r.high_252d.getD 1) - 1|
            ≤ tolerance
          ∧ 0 < r.high_252d.getD 1
          ∧ (market_return_20d : WithBot ℚ) < fillNegInf r.return_20d))
    ∧ (∀ res, res ∈ vcpFilter tolerance f market_return_20d target_date ↔
        ∃ r ∈ prepareVcp f, r.date = target_date ∧
          toVcpResult tolerance market_return_20d r = res ∧
          (strongCond r = true ∨ newHighCond tolerance r = true) ∧
          beatMarketCond market_return_20d r = true) := by
  constructor
  · intro sid
    constructor
    · rintro ⟨res, hres, hsid, hnh⟩
      obtain ⟨r, hr, hd, htor, -⟩ :=
        (mem_vcpFilter_iff tolerance market_return_20d target_date f res).mp hres
      have hflag : (newHighCond tolerance r && beatMarketCond market_return_20d r)
          = true := by
        rw [show (newHighCond tolerance r && beatMarketCond market_return_20d r)
              = (toVcpResult tolerance market_return_20d r).is_new_high from rfl, htor]
        exact hnh
      rw [Bool.and_eq_true] at hflag
      obtain ⟨hnc, hbc⟩ := hflag
      obtain ⟨h1, h2⟩ := (newHighCond_iff tolerance r).mp hnc
      refine ⟨r, hr, ?_, hd, h1, h2, (beatMarketCond_iff _ _).mp hbc⟩
      rw [show r.stock_id
            = (toVcpResult tolerance market_return_20d r).stock_id from rfl, htor]
      exact hsid
    · rintro ⟨r, hr, hsid, hd, h1, h2, h3⟩
      have hnc : newHighCond tolerance r = true := (newHighCond_iff _ r).mpr ⟨h1, h2⟩
      have hbc : beatMarketCond market_return_20d r = true :=
        (beatMarketCond_iff _ _).mpr h3
      have hnh : (toVcpResult tolerance market_return_20d r).is_new_high = true := by
        show (newHighCond tolerance r && beatMarketCond market_return_20d r) = true
        rw [hnc, hbc]
        rfl
      refine ⟨toVcpResult tolerance market_return_20d r, ?_, hsid, hnh⟩
      apply (mem_vcpFilter_iff tolerance market_return_20d target_date f _).mpr
      refine ⟨r, hr, hd, rfl, ?_⟩
      rw [Bool.or_eq_true]
      exact Or.inr hnh
  · intro res
    rw [mem_vcpFilter_iff]
    constructor
    · rintro ⟨r, hr, hd, htor, hflag⟩
      refine ⟨r, hr, hd, htor, ?_, ?_⟩
      all_goals
        rw [← htor] at hflag
        have hs : (toVcpResult tolerance market_return_20d r).is_strong
            = (strongCond r && beatMarketCond market_return_20d r) := rfl
        have hn : (toVcpResult tolerance market_return_20d r).is_new_high
            = (newHighCond tolerance r && beatMarketCond market_return_20d r) := rfl
        rw [hs, hn] at hflag
        cases hsc : strongCond r <;> cases hnc : newHighCond tolerance r <;>
          cases hbc : beatMarketCond market_return_20d r <;> simp_all
    · rintro ⟨r, hr, hd, htor, hor, hbc⟩
      refine ⟨r, hr, hd, htor, ?_⟩
      rw [← htor]
      have hs : (toVcpResult tolerance market_return_20d r).is_strong
          = (strongCond r && beatMarketCond market_return_20d r) := rfl
      have hn : (toVcpResult tolerance market_return_20d r).is_new_high
          = (newHighCond tolerance r && beatMarketCond market_return_20d r) := rfl
      rw [Bool.or_eq_true, hs, hn]
      rcases hor with hsc | hnc
      · exact Or.inl (by rw [hsc, hbc]; rfl)
      · exact Or.inr (by rw [hnc, hbc]; rfl)

/-- C2 amended witness: the amended characterization instantiated on the
21-bar frame; its right-hand side concretely holds with `high_252d`
defaulted to 1. -/
theorem vcp_new_high_witness :
    PosCloses vcpShortFrame
    ∧ ((∃ res ∈ vcpFilter (1/10) vcpShortFrame (-1) 20,
          res.stock_id = "1101" ∧ res.is_new_high = true) ↔
        (∃ r ∈ prepareVcp vcpShortFrame, r.stock_id = "1101" ∧ r.date = 20 ∧
          |r.high_5d.getD 0 /
              (if r.high_252d.getD 1 = 0 then 1 else r.high_252d.getD 1) - 1|
            ≤ 1/10
          ∧ 0 < r.high_252d.getD 1
          ∧ ((-1 : ℚ) : WithBot ℚ) < fillNegInf r.return_20d)) :=
  ⟨by decide, (vcp_new_high_iff (1/10) (-1) 20 vcpShortFrame (by decide)).1 "1101"⟩

set_option maxRecDepth 4000 in
/-- Membership in the bloom output, unfolded to the indicator row it came
from. -/
theorem mem_sanxianFilter_iff (f : List StockSeries) (target_date : Nat)
    (res : SanxianResult) :
    res ∈ sanxianFilter f target_date ↔
      ∃ r ∈ prepareSanxian f, r.date = target_date ∧
        sanxianChainCond r = true ∧ sanxianNewHighCond r = true ∧
        toSanxianResult r = res := by
  unfold sanxianFilter
  simp only [List.mem_map, List.mem_filter, decide_eq_true_eq, Bool.and_eq_true]
  constructor
  · rintro ⟨r, ⟨⟨hr, hd⟩, hc, hn⟩, hres⟩
    exact ⟨r, hr, hd, hc, hn, hres⟩
  · rintro ⟨r, hr, hd, hc, hn, hres⟩
    exact ⟨r, ⟨⟨hr, hd⟩, hc, hn⟩, hres⟩

/-- The bloom chain mask as a proposition. -/
theorem sanxianChainCond_iff (r : SanxianRow) :
    sanxianChainCond r = true ↔
      (fillInf r.ma8 < ((r.close_price.getD 0 : ℚ) : WithTop ℚ)
        ∧ fillInf r.ma21 < fillInf r.ma8
        ∧ fillInf r.ma55 < fillInf r.ma21) := by
  simp [sanxianChainCond, Bool.and_eq_true, and_assoc]

/-- The bloom close-based new-high mask as a proposition. -/
theorem sanxianNewHighCond_iff (r : SanxianRow) :
    sanxianNewHighCond r = true ↔
      fillInf r.high_55d ≤ ((r.close_price.getD 0 : ℚ) : WithTop ℚ) := by
  simp [sanxianNewHighCond]

/-- C3: the bloom output holds exactly the target-date rows with (fail-safe
defaulted) close > MA8 > MA21 > MA55 and close at or above the 55-day rolling
maximum of closing price; every reported gap ratio is
`close / second_high_55d - 1` with an undefined or zero `second_high_55d`
replaced by 1. -/
theorem sanxian_filter_spec (f : List StockSeries) (target_date : Nat) :
    (∀ res, res ∈ sanxianFilter f target_date ↔
      ∃ r ∈ prepareSanxian f, r.date = target_date ∧
        (fillInf r.ma8 < ((r.close_price.getD 0 : ℚ) : WithTop ℚ)
          ∧ fillInf r.ma21 < fillInf r.ma8
          ∧ fillInf r.ma55 < fillInf r.ma21)
        ∧ fillInf r.high_55d ≤ ((r.close_price.getD 0 : ℚ) : WithTop ℚ)
        ∧ toSanxianResult r = res)
    ∧ (∀ res ∈ sanxianFilter f target_date,
        res.gap_ratio = res.today_price.map (fun c =>
          c / (if res.second_high_55d.getD 1 = 0 then 1
               else res.second_high_55d.getD 1) - 1)) := by
  constructor
  · intro res
    rw [mem_sanxianFilter_iff]
    constructor
    · rintro ⟨r, hr, hd, hc, hn, hres⟩
      exact ⟨r, hr, hd, (sanxianChainCond_iff r).mp hc,
        (sanxianNewHighCond_iff r).mp hn, hres⟩
    · rintro ⟨r, hr, hd, hc, hn, hres⟩
      exact ⟨r, hr, hd, (sanxianChainCond_iff r).mpr hc,
        (sanxianNewHighCond_iff r).mpr hn, hres⟩
  · intro res hres
    obtain ⟨r, hr, hd, hc, hn, hres'⟩ := (mem_sanxianFilter_iff f target_date res).mp hres
    rw [← hres']
    rfl

set_option maxRecDepth 100000 in
/-- C3 witness: on a 55-bar rising series the last row matches and its gap
ratio is `55/54 - 1 = 1/54` against the second-highest close 54. -/
theorem sanxian_filter_witness :
    bloomRes ∈ sanxianFilter bloomFrame 54
    ∧ bloomRes.gap_ratio = bloomRes.today_price.map (fun c =>
        c / (if bloomRes.second_high_55d.getD 1 = 0 then 1
             else bloomRes.second_high_55d.getD 1) - 1) :=
  ⟨by with_unfolding_all decide,
    (sanxian_filter_spec bloomFrame 54).2 bloomRes (by with_unfolding_all decide)⟩

end ZFTrend
